import Mathlib

/-!
iometrics: the sqllite smoke-test harness (`cmd/sqllite/main.go`)

A shallow embedding of the counter (`count32`), the test tracker (`test`), the
metric formatter (`PrometheusMetric`), one insert attempt (`insertTest`) and the
insert loop of `main`, followed by the properties proved about them.

Modelling conventions.

* Go `int32` values are `Int`s; every `int32` addition in the source is followed
  by `wrap32`, the two's-complement wrap-around that `atomic.AddInt32`, `val + 1`
  and `t.resetCount++` perform.
* `*count32` fields are modelled by value: `main` allocates one private counter
  per field and `Reset` installs fresh ones, so the two pointers never alias.
* `map[string]int32` is an association list with unique keys (`AList`); only
  `lookup`, `insert`, the key set and the stored counts are observed. The map and
  the two counters are always allocated, as `main` and `Reset` leave them: a
  `test` with a nil map or a nil counter is not a state of the model.
* Calls on the tracker are sequential. The insert loop only starts attempts
  (`go insertTest(...)`); their effect on the tracker is described separately, for
  an arbitrary order in which the started attempts finish.
-/

namespace Iometrics

/-! ## Machine integers -/

/-- Two's-complement wrap-around of a mathematical integer into the `int32` range. -/
def wrap32 (x : Int) : Int := (x + 2147483648) % 4294967296 - 2147483648

/-! ## `count32` -/

/-- The counter type, `type count32 int32`. -/
structure count32 where
  val : Int
deriving DecidableEq, Repr

/-- The method `func (c *count32) Inc() int32`, whose body is
`return atomic.AddInt32((*int32)(c), 1)`: the counter after the call, and the
returned value. -/
def count32.Inc (c : count32) : count32 × Int :=
  (⟨wrap32 (c.val + 1)⟩, wrap32 (c.val + 1))

/-- The method `func (c *count32) Get() int32`, whose body is
`return atomic.LoadInt32((*int32)(c))`: the counter after the call, and the
returned value. -/
def count32.Get (c : count32) : count32 × Int :=
  (c, c.val)

/-! ## `test`, the tracker -/

/-- The tracker:
`type test struct { pass, fail *count32; failure bool; firstFailureSeen int32;
failureMessages map[string]int32; resetCount int32 }`. -/
structure test where
  pass : count32
  fail : count32
  failure : Bool
  firstFailureSeen : Int
  failureMessages : AList (fun _ : String => Int)
  resetCount : Int

/-- The tracker `main` builds: `&test{&passC, &failC, false, 0, make(map[string]int32), 0}`. -/
def newTest : test :=
  { pass := ⟨0⟩, fail := ⟨0⟩, failure := false, firstFailureSeen := 0,
    failureMessages := ∅, resetCount := 0 }

/-- The method `func (t *test) Pass()`, whose body is `t.pass.Inc()`. -/
def test.Pass (t : test) : test :=
  { t with pass := t.pass.Inc.1 }

/-- The method `func (t *test) Fail(err string)`: bump the message's count (or insert it
with 1), then `t.fail.Inc()`. -/
def test.Fail (t : test) (err : String) : test :=
  let failureMessages :=
    match t.failureMessages.lookup err with
    | some val => t.failureMessages.insert err (wrap32 (val + 1))
    | none => t.failureMessages.insert err 1
  { t with failureMessages := failureMessages, fail := t.fail.Inc.1 }

/-- The method `func (t *test) Reset()`: fresh counters, fresh map, `t.resetCount++`. -/
def test.Reset (t : test) : test :=
  { t with pass := ⟨0⟩, fail := ⟨0⟩, failureMessages := ∅,
           resetCount := wrap32 (t.resetCount + 1) }

/-- One call on the tracker. -/
inductive Op where
  | Pass : Op
  | Fail (err : String) : Op
  | Reset : Op
deriving DecidableEq, Repr

/-- The effect of one call. -/
def Op.apply : Op → test → test
  | Op.Pass, t => t.Pass
  | Op.Fail err, t => t.Fail err
  | Op.Reset, t => t.Reset

/-- The effect of a finite sequence of calls, first call first. -/
def run : List Op → test → test
  | [], t => t
  | op :: ops, t => run ops (op.apply t)

/-- The number of `Fail` calls in a sequence. -/
def countFail : List Op → Nat
  | [] => 0
  | Op.Fail _ :: ops => countFail ops + 1
  | _ :: ops => countFail ops

/-- The number of `Pass` calls in a sequence. -/
def countPass : List Op → Nat
  | [] => 0
  | Op.Pass :: ops => countPass ops + 1
  | _ :: ops => countPass ops

/-- The number of `Fail` calls made after the last `Reset` of a sequence, when
`n` of them were made before the sequence starts. -/
def failsSinceReset : List Op → Nat → Nat
  | [], n => n
  | Op.Pass :: ops, n => failsSinceReset ops n
  | Op.Fail _ :: ops, n => failsSinceReset ops (n + 1)
  | Op.Reset :: ops, _ => failsSinceReset ops 0

/-- The sum of all counts stored in a failure-message mapping. -/
def sumCounts (m : AList (fun _ : String => Int)) : Int :=
  (m.entries.map (fun e => e.2)).sum

/-! ## One insert attempt and the insert loop of `main` -/

/-- The function `func insertTest(db, statement, test)`: the two identifiers are generated and
the prepared statement is executed; `execErr` is what `statement.Exec` returned
(`none` for a nil error, `some e` for an error whose `Error()` text is `e`). -/
def insertTest (execErr : Option String) (t : test) : test :=
  match execErr with
  | some e => t.Fail e
  | none => t.Pass

/-- The insert loop of one cycle, entered with loop variable `i`:
`for i := 1; i < insertCount; i++ { go insertTest(...); time.Sleep(...) }`.
Each iteration starts one goroutine that runs `insertTest` and does not wait for
it, so the loop itself leaves the tracker alone: what it produces is the attempts
it has started. `launched` lists the attempts started so far, oldest first, each
named by the value of `i` at its `go` statement. The loop variable stays at most
`insertCount`, so `i++` cannot overflow. -/
def insertLoop (insertCount : Int) (i : Int) (launched : List Int) : List Int :=
  if i < insertCount then
    insertLoop insertCount (i + 1) (launched ++ [i])
  else
    launched
termination_by (insertCount - i).toNat
decreasing_by omega

/-- The insert phase of one cycle of `main`: the loop started at `i := 1` with no
attempt running; the result is the attempts the cycle starts. -/
def insertPhase (insertCount : Int) : List Int :=
  insertLoop insertCount 1 []

/-- The tracker once the attempts of `order` have run `insertTest` to its end, one
after the other in this order, where `exec a` is what the statement execution of
attempt `a` returned. Nothing in `main` orders the attempts, so `order` is any
arrangement of the started ones. A successful attempt touches the tracker only
through the atomic `pass.Inc()`, so for successful attempts every interleaving
is one of these orders; `Fail` writes the map without a guard, so failing
attempts that overlap in time are not described. -/
def complete (exec : Int → Option String) : List Int → test → test
  | [], t => t
  | a :: order, t => complete exec order (insertTest (exec a) t)

/-! ## `PrometheusMetric` -/

/-- The verb `%d` of `fmt.Sprintf` on an integer: decimal digits, with a leading
minus sign for negative numbers. -/
def fmtD (i : Int) : String :=
  match i with
  | Int.ofNat m => (Nat.toDigits 10 m).asString
  | Int.negSucc m => "-" ++ (Nat.toDigits 10 (m + 1)).asString

/-- The format
`<name>{insertCount="%d",insertWait="%d",sleepWait="%d"} %d` of `PrometheusMetric`,
applied to its four arguments. -/
def metricLine (name : String) (insertCount insertWait sleepWait value : Int) : String :=
  name ++ "\x7binsertCount=\"" ++ fmtD insertCount ++ "\",insertWait=\"" ++ fmtD insertWait
    ++ "\",sleepWait=\"" ++ fmtD sleepWait ++ "\"\x7d " ++ fmtD value

/-- The method
`func (t *test) PrometheusMetric(insertCount, insertWait, sleepWait int) string`:
the two lines are substituted into the raw string literal that starts with a line
break, then `%s`, a line break, and `%s`. -/
def test.PrometheusMetric (t : test) (insertCount insertWait sleepWait : Int) : String :=
  let pass := metricLine "iometrics_sqllite_pass" insertCount insertWait sleepWait t.pass.Get.2
  let fail := metricLine "iometrics_sqllite_fail" insertCount insertWait sleepWait t.fail.Get.2
  "\n" ++ pass ++ "\n" ++ fail

/-- Splitting a text on newline characters, as `strings.Split(s, "\n")` does: the
pieces between consecutive newlines, so a text without newline is one piece and a
text that starts with a newline has an empty first piece. -/
def splitOnNewline : List Char → List (List Char)
  | [] => [[]]
  | c :: cs =>
    if c = '\n' then [] :: splitOnNewline cs
    else
      match splitOnNewline cs with
      | [] => [[c]]
      | l :: ls => (c :: l) :: ls

/-! ## The SQL statements -/

/-- The statement text of `createTable` (`createStudentTableSQL`). -/
def createStudentTableSQL : String :=
  "CREATE TABLE testdata (\n\t\t\"id\" integer NOT NULL PRIMARY KEY AUTOINCREMENT,\t\t\n\t\t\"text1\" \t\tTEXT,\n\t\t\"text2\" \t\tTEXT\n\t  );"

/-- The statement text `main` prepares for the inserts (`insertTestData`). -/
def insertTestData : String :=
  "INSERT INTO testdata(text1, text1) VALUES (?, ?)"

/-- The characters up to, and excluding, the first occurrence of `stop`. -/
def takeUntil (stop : Char) : List Char → List Char
  | [] => []
  | c :: cs => if c = stop then [] else c :: takeUntil stop cs

/-- The characters after the first occurrence of `start`. -/
def dropThrough (start : Char) : List Char → List Char
  | [] => []
  | c :: cs => if c = start then cs else dropThrough start cs

/-- Splitting on commas, dropping blanks: the names of a comma-separated list. -/
def splitNames : List Char → List Char → List String
  | acc, [] => [acc.reverse.asString]
  | acc, c :: cs =>
    if c = ',' then acc.reverse.asString :: splitNames [] cs
    else if c = ' ' then splitNames acc cs
    else splitNames (c :: acc) cs

/-- The column list of an `INSERT INTO table(c1, c2, ...) VALUES ...` statement:
the names between the first pair of parentheses, in order. -/
def insertColumns (sql : String) : List String :=
  splitNames [] (takeUntil ')' (dropThrough '(' sql.data))

/-- The double-quoted identifiers of a statement, in order: the column names of
the `CREATE TABLE` statement of `createTable`. The first argument is the
identifier being read, if the scan is inside quotes. -/
def quotedNames : Option (List Char) → List Char → List String
  | _, [] => []
  | none, c :: cs =>
    if c = '"' then quotedNames (some []) cs else quotedNames none cs
  | some acc, c :: cs =>
    if c = '"' then acc.reverse.asString :: quotedNames none cs
    else quotedNames (some (c :: acc)) cs

/-- The column names `createTable` declares. -/
def createdColumns : List String :=
  quotedNames none createStudentTableSQL.data

/-- The text an execution `statement.Exec(text1, text2)` of the insert statement
stores in column `col` of the new row. The i-th argument belongs to the i-th name
of the column list; a column the list names more than once takes the argument of
its first position, and a column the list does not name is left NULL (`none`). -/
def storedText (text1 text2 : String) (col : String) : Option String :=
  ((insertColumns insertTestData).zip [text1, text2]).lookup col

/-! ## Arithmetic of `wrap32` -/

theorem wrap32_of_inRange (x : Int) (hlo : -2147483648 ≤ x) (hhi : x ≤ 2147483647) :
    wrap32 x = x := by
  unfold wrap32
  omega

theorem wrap32_wrap32_add (x y : Int) : wrap32 (wrap32 x + y) = wrap32 (x + y) := by
  unfold wrap32
  omega

/-! ## The counter -/

/-- C5, as stated, fails at the largest counter value: `Inc()` on 2147483647
returns -2147483648, which is not 2147483647 + 1. -/
theorem Inc_at_maxInt32 :
    (count32.Inc ⟨2147483647⟩).2 = -2147483648 ∧
    (count32.Inc ⟨2147483647⟩).1.val = -2147483648 ∧
    (count32.Inc ⟨2147483647⟩).2 ≠ 2147483647 + 1 := by
  decide

/-- C5 (amended): for every counter value `v` of the `int32` range other than
its maximum 2147483647, `Inc()` adds one to the stored value and returns the new
value `v + 1`; for every `v`, `Get()` returns the stored value and leaves it as it
is, and a `Get()` right after `Inc()` returns the value `Inc()` returned. -/
theorem Inc_Get_spec (v : Int) (hlo : -2147483648 ≤ v) (hhi : v < 2147483647) :
    (count32.Inc ⟨v⟩).1.val = v + 1 ∧
    (count32.Inc ⟨v⟩).2 = v + 1 ∧
    (count32.Get ⟨v⟩).2 = v ∧
    (count32.Get ⟨v⟩).1 = ⟨v⟩ ∧
    (count32.Get (count32.Inc ⟨v⟩).1).2 = (count32.Inc ⟨v⟩).2 := by
  have h : wrap32 (v + 1) = v + 1 := wrap32_of_inRange (v + 1) (by omega) (by omega)
  simp [count32.Inc, count32.Get, h]

/-- C5 (amended) at the counter value 41. -/
theorem Inc_Get_spec_witness :
    (-2147483648 : Int) ≤ 41 ∧ (41 : Int) < 2147483647 ∧
    (count32.Inc ⟨41⟩).1.val = 41 + 1 ∧
    (count32.Inc ⟨41⟩).2 = 41 + 1 ∧
    (count32.Get ⟨41⟩).2 = 41 ∧
    (count32.Get ⟨41⟩).1 = ⟨41⟩ ∧
    (count32.Get (count32.Inc ⟨41⟩).1).2 = (count32.Inc ⟨41⟩).2 :=
  ⟨by decide, by decide, Inc_Get_spec 41 (by decide) (by decide)⟩

/-! ## `Fail`, `Reset` and `insertTest` on one state -/

/-- C2, as stated, fails where a 32-bit value is at its maximum: with the fail
counter at 2147483647, `Fail` leaves it at -2147483648, and a message whose count
is 2147483647 gets the count -2147483648. -/
theorem Fail_at_maxInt32 :
    ((({ newTest with fail := ⟨2147483647⟩ } : test).Fail "e").fail.Get.2 = -2147483648) ∧
    ((({ newTest with fail := ⟨2147483647⟩ } : test).Fail "e").fail.Get.2
      ≠ ({ newTest with fail := ⟨2147483647⟩ } : test).fail.Get.2 + 1) ∧
    ((({ newTest with failureMessages := AList.singleton "e" 2147483647 } : test).Fail
      "e").failureMessages.lookup "e" = some (-2147483648)) := by
  decide

/-- C2 (amended): for every tracker state whose fail counter is an `int32` below
2147483647 and every message `m` whose count, if `m` is present, is an `int32`
below 2147483647, `Fail(m)` increments the fail counter by one and sets
`failureMessages[m]` to its previous count plus one, or to 1 when `m` was absent;
the count of every other key, the set of other keys, and the pass counter are
unchanged. -/
theorem Fail_spec (t : test) (m : String)
    (hfail : -2147483648 ≤ t.fail.val ∧ t.fail.val < 2147483647)
    (hcount : ∀ c, t.failureMessages.lookup m = some c → -2147483648 ≤ c ∧ c < 2147483647) :
    (t.Fail m).fail.Get.2 = t.fail.Get.2 + 1 ∧
    (∀ c, t.failureMessages.lookup m = some c →
      (t.Fail m).failureMessages.lookup m = some (c + 1)) ∧
    (t.failureMessages.lookup m = none → (t.Fail m).failureMessages.lookup m = some 1) ∧
    (∀ k, k ≠ m → (t.Fail m).failureMessages.lookup k = t.failureMessages.lookup k) ∧
    (∀ k, k ≠ m → (k ∈ (t.Fail m).failureMessages ↔ k ∈ t.failureMessages)) ∧
    (t.Fail m).pass = t.pass := by
  have hf : wrap32 (t.fail.val + 1) = t.fail.val + 1 :=
    wrap32_of_inRange _ (by omega) (by omega)
  refine ⟨by simp [test.Fail, count32.Inc, count32.Get, hf], ?_, ?_, ?_, ?_, rfl⟩
  · intro c hc
    have hw : wrap32 (c + 1) = c + 1 :=
      wrap32_of_inRange _ (by have := hcount c hc; omega) (by have := hcount c hc; omega)
    simp [test.Fail, hc, hw, AList.lookup_insert]
  · intro hn
    simp [test.Fail, hn, AList.lookup_insert]
  · intro k hk
    unfold test.Fail
    cases t.failureMessages.lookup m <;> simp [AList.lookup_insert_ne hk]
  · intro k hk
    unfold test.Fail
    cases t.failureMessages.lookup m <;> simp [AList.mem_insert, hk]

/-- C2 (amended) at the tracker of `main` after one `Fail("a")`, for the message "a". -/
theorem Fail_spec_witness :
    (-2147483648 ≤ (newTest.Fail "a").fail.val ∧ (newTest.Fail "a").fail.val < 2147483647) ∧
    (∀ c, (newTest.Fail "a").failureMessages.lookup "a" = some c →
      -2147483648 ≤ c ∧ c < 2147483647) ∧
    ((newTest.Fail "a").Fail "a").fail.Get.2 = (newTest.Fail "a").fail.Get.2 + 1 ∧
    (∀ c, (newTest.Fail "a").failureMessages.lookup "a" = some c →
      ((newTest.Fail "a").Fail "a").failureMessages.lookup "a" = some (c + 1)) ∧
    ((newTest.Fail "a").failureMessages.lookup "a" = none →
      ((newTest.Fail "a").Fail "a").failureMessages.lookup "a" = some 1) ∧
    (∀ k, k ≠ "a" → ((newTest.Fail "a").Fail "a").failureMessages.lookup k
      = (newTest.Fail "a").failureMessages.lookup k) ∧
    (∀ k, k ≠ "a" → (k ∈ ((newTest.Fail "a").Fail "a").failureMessages
      ↔ k ∈ (newTest.Fail "a").failureMessages)) ∧
    ((newTest.Fail "a").Fail "a").pass = (newTest.Fail "a").pass :=
  have hcount : ∀ c, (newTest.Fail "a").failureMessages.lookup "a" = some c →
      -2147483648 ≤ c ∧ c < 2147483647 := by
    intro c hc
    have h1 : (newTest.Fail "a").failureMessages.lookup "a" = some 1 := by decide
    rw [h1] at hc
    cases hc
    decide
  ⟨by decide, hcount, Fail_spec (newTest.Fail "a") "a" (by decide) hcount⟩

/-- C4, as stated, fails at the largest reset count: with `resetCount` at
2147483647, `Reset()` leaves it at -2147483648, not one more than before. -/
theorem Reset_at_maxInt32 :
    (({ newTest with resetCount := 2147483647 } : test).Reset).resetCount = -2147483648 ∧
    (({ newTest with resetCount := 2147483647 } : test).Reset).resetCount
      ≠ ({ newTest with resetCount := 2147483647 } : test).resetCount + 1 := by
  decide

/-- C4 (amended): for every tracker state, after `Reset()` the pass counter reads
0, the fail counter reads 0, the failure-message mapping is empty, and the
failure flag and `firstFailureSeen` are unchanged; `resetCount` is exactly one
more than before whenever it was an `int32` below 2147483647, and is -2147483648
when it was 2147483647. -/
theorem Reset_spec (t : test) :
    t.Reset.pass.Get.2 = 0 ∧
    t.Reset.fail.Get.2 = 0 ∧
    t.Reset.failureMessages = ∅ ∧
    t.Reset.failureMessages.keys = [] ∧
    t.Reset.failure = t.failure ∧
    t.Reset.firstFailureSeen = t.firstFailureSeen ∧
    (-2147483648 ≤ t.resetCount → t.resetCount < 2147483647 →
      t.Reset.resetCount = t.resetCount + 1) ∧
    (t.resetCount = 2147483647 → t.Reset.resetCount = -2147483648) := by
  refine ⟨rfl, rfl, rfl, rfl, rfl, rfl, ?_, ?_⟩
  · intro hlo hhi
    exact wrap32_of_inRange _ (by omega) (by omega)
  · intro h
    simp only [test.Reset, h]
    decide

/-- C4 (amended) at the tracker of `main` after one `Fail("a")` and one `Pass()`,
whose `resetCount` is 0. -/
theorem Reset_spec_witness :
    -2147483648 ≤ ((newTest.Fail "a").Pass).resetCount ∧
    ((newTest.Fail "a").Pass).resetCount < 2147483647 ∧
    ((newTest.Fail "a").Pass).pass.Get.2 = 1 ∧
    ((newTest.Fail "a").Pass).fail.Get.2 = 1 ∧
    ((newTest.Fail "a").Pass).failureMessages.keys = ["a"] ∧
    ((newTest.Fail "a").Pass).Reset.pass.Get.2 = 0 ∧
    ((newTest.Fail "a").Pass).Reset.fail.Get.2 = 0 ∧
    ((newTest.Fail "a").Pass).Reset.failureMessages = ∅ ∧
    ((newTest.Fail "a").Pass).Reset.failureMessages.keys = [] ∧
    ((newTest.Fail "a").Pass).Reset.failure = ((newTest.Fail "a").Pass).failure ∧
    ((newTest.Fail "a").Pass).Reset.firstFailureSeen
      = ((newTest.Fail "a").Pass).firstFailureSeen ∧
    ((newTest.Fail "a").Pass).Reset.resetCount = ((newTest.Fail "a").Pass).resetCount + 1 :=
  ⟨by decide, by decide, by decide, by decide, by decide,
    (Reset_spec ((newTest.Fail "a").Pass)).1,
    (Reset_spec ((newTest.Fail "a").Pass)).2.1,
    (Reset_spec ((newTest.Fail "a").Pass)).2.2.1,
    (Reset_spec ((newTest.Fail "a").Pass)).2.2.2.1,
    (Reset_spec ((newTest.Fail "a").Pass)).2.2.2.2.1,
    (Reset_spec ((newTest.Fail "a").Pass)).2.2.2.2.2.1,
    (Reset_spec ((newTest.Fail "a").Pass)).2.2.2.2.2.2.1 (by decide) (by decide)⟩

/-- C8, as stated, fails where a counter is at its maximum: a successful attempt
on a tracker whose pass counter is 2147483647 leaves it at -2147483648, and a
failed attempt on a tracker whose fail counter is 2147483647 leaves that one at
-2147483648. -/
theorem insertTest_at_maxInt32 :
    (insertTest none { newTest with pass := ⟨2147483647⟩ }).pass.Get.2 = -2147483648 ∧
    (insertTest none { newTest with pass := ⟨2147483647⟩ }).pass.Get.2
      ≠ ({ newTest with pass := ⟨2147483647⟩ } : test).pass.Get.2 + 1 ∧
    (insertTest (some "database is locked")
      { newTest with fail := ⟨2147483647⟩ }).fail.Get.2 = -2147483648 := by
  decide

/-- C8 (amended): for every tracker state whose pass and fail counters are
`int32` values below 2147483647, and every outcome of the statement execution,
one insert attempt records exactly one outcome. If execution returns an error
`e` (whose count, if present, is an `int32` below 2147483647) the attempt is
`Fail` with `e`'s text: fail counter +1, `failureMessages[e]` +1 (1 when `e` was
absent), other keys and the pass counter unchanged. If execution succeeds the
pass counter is incremented by one and the fail counter and the failure-message
mapping are unchanged. -/
theorem insertTest_spec (t : test) (execErr : Option String)
    (hpass : -2147483648 ≤ t.pass.val ∧ t.pass.val < 2147483647)
    (hfail : -2147483648 ≤ t.fail.val ∧ t.fail.val < 2147483647)
    (hcount : ∀ e c, execErr = some e → t.failureMessages.lookup e = some c →
      -2147483648 ≤ c ∧ c < 2147483647) :
    (∀ e, execErr = some e →
      insertTest execErr t = t.Fail e ∧
      (insertTest execErr t).fail.Get.2 = t.fail.Get.2 + 1 ∧
      (insertTest execErr t).failureMessages.lookup e
        = some ((t.failureMessages.lookup e).getD 0 + 1) ∧
      (∀ k, k ≠ e →
        (insertTest execErr t).failureMessages.lookup k = t.failureMessages.lookup k) ∧
      (insertTest execErr t).pass = t.pass) ∧
    (execErr = none →
      insertTest execErr t = t.Pass ∧
      (insertTest execErr t).pass.Get.2 = t.pass.Get.2 + 1 ∧
      (insertTest execErr t).fail = t.fail ∧
      (insertTest execErr t).failureMessages = t.failureMessages) := by
  have hp : wrap32 (t.pass.val + 1) = t.pass.val + 1 :=
    wrap32_of_inRange _ (by omega) (by omega)
  have hf : wrap32 (t.fail.val + 1) = t.fail.val + 1 :=
    wrap32_of_inRange _ (by omega) (by omega)
  constructor
  · intro e he
    subst he
    refine ⟨rfl, by simp [insertTest, test.Fail, count32.Inc, count32.Get, hf], ?_, ?_, rfl⟩
    · cases hl : t.failureMessages.lookup e with
      | none => simp [insertTest, test.Fail, hl, AList.lookup_insert]
      | some c =>
        have hw : wrap32 (c + 1) = c + 1 :=
          wrap32_of_inRange _ (by have := hcount e c rfl hl; omega)
            (by have := hcount e c rfl hl; omega)
        simp [insertTest, test.Fail, hl, hw, AList.lookup_insert]
    · intro k hk
      simp only [insertTest, test.Fail]
      cases t.failureMessages.lookup e <;> simp [AList.lookup_insert_ne hk]
  · intro hn
    subst hn
    exact ⟨rfl, by simp [insertTest, test.Pass, count32.Inc, count32.Get, hp], rfl, rfl⟩

/-- C8 (amended) at the tracker of `main`, for an execution that returns the error
"database is locked". -/
theorem insertTest_spec_witness :
    (-2147483648 ≤ newTest.pass.val ∧ newTest.pass.val < 2147483647) ∧
    (-2147483648 ≤ newTest.fail.val ∧ newTest.fail.val < 2147483647) ∧
    ((∀ e, some "database is locked" = some e →
      insertTest (some "database is locked") newTest = newTest.Fail e ∧
      (insertTest (some "database is locked") newTest).fail.Get.2 = newTest.fail.Get.2 + 1 ∧
      (insertTest (some "database is locked") newTest).failureMessages.lookup e
        = some ((newTest.failureMessages.lookup e).getD 0 + 1) ∧
      (∀ k, k ≠ e →
        (insertTest (some "database is locked") newTest).failureMessages.lookup k
          = newTest.failureMessages.lookup k) ∧
      (insertTest (some "database is locked") newTest).pass = newTest.pass) ∧
    (some "database is locked" = none →
      insertTest (some "database is locked") newTest = newTest.Pass ∧
      (insertTest (some "database is locked") newTest).pass.Get.2 = newTest.pass.Get.2 + 1 ∧
      (insertTest (some "database is locked") newTest).fail = newTest.fail ∧
      (insertTest (some "database is locked") newTest).failureMessages
        = newTest.failureMessages)) :=
  ⟨by decide, by decide,
    insertTest_spec newTest (some "database is locked") (by decide) (by decide)
      (by intro e c _ hl; simp [newTest] at hl)⟩

/-! ## Sequences of calls -/

theorem run_append (xs ys : List Op) (t : test) : run (xs ++ ys) t = run ys (run xs t) := by
  induction xs generalizing t with
  | nil => rfl
  | cons x xs ih => simp [run, ih]

theorem countPass_add_countFail (ops : List Op) (h : ∀ op ∈ ops, op ≠ Op.Reset) :
    countPass ops + countFail ops = ops.length := by
  induction ops with
  | nil => rfl
  | cons op ops ih =>
    have ih2 := ih (fun o ho => h o (List.mem_cons_of_mem _ ho))
    cases op with
    | Pass => simp [countPass, countFail]; omega
    | Fail e => simp [countPass, countFail]; omega
    | Reset => exact absurd rfl (h Op.Reset (List.mem_cons_self _ _))

/-- Without `Reset` and without overflow, the pass counter grows by the number of
`Pass` calls and the fail counter by the number of `Fail` calls. -/
theorem run_counters (ops : List Op) (t : test) (h : ∀ op ∈ ops, op ≠ Op.Reset)
    (hp : -2147483648 ≤ t.pass.val) (hp2 : t.pass.val + countPass ops ≤ 2147483647)
    (hf : -2147483648 ≤ t.fail.val) (hf2 : t.fail.val + countFail ops ≤ 2147483647) :
    (run ops t).pass.val = t.pass.val + countPass ops ∧
    (run ops t).fail.val = t.fail.val + countFail ops := by
  induction ops generalizing t with
  | nil => simp [run, countPass, countFail]
  | cons op ops ih =>
    have hrest : ∀ o ∈ ops, o ≠ Op.Reset := fun o ho => h o (List.mem_cons_of_mem _ ho)
    cases op with
    | Pass =>
      simp only [countPass, countFail, Nat.cast_add, Nat.cast_one] at hp2 hf2 ⊢
      have hw : wrap32 (t.pass.val + 1) = t.pass.val + 1 :=
        wrap32_of_inRange _ (by omega) (by omega)
      have hv : (Op.Pass.apply t).pass.val = t.pass.val + 1 := by
        simp [Op.apply, test.Pass, count32.Inc, hw]
      have hv2 : (Op.Pass.apply t).fail.val = t.fail.val := rfl
      have := ih (Op.Pass.apply t) hrest (by omega) (by omega) (by omega) (by omega)
      simp only [run]
      omega
    | Fail e =>
      simp only [countPass, countFail, Nat.cast_add, Nat.cast_one] at hp2 hf2 ⊢
      have hw : wrap32 (t.fail.val + 1) = t.fail.val + 1 :=
        wrap32_of_inRange _ (by omega) (by omega)
      have hv : ((Op.Fail e).apply t).fail.val = t.fail.val + 1 := by
        simp [Op.apply, test.Fail, count32.Inc, hw]
      have hv2 : ((Op.Fail e).apply t).pass.val = t.pass.val := rfl
      have := ih ((Op.Fail e).apply t) hrest (by omega) (by omega) (by omega) (by omega)
      simp only [run]
      omega
    | Reset => exact absurd rfl (h Op.Reset (List.mem_cons_self _ _))

/-- A run of `Pass` calls adds their number to the pass counter, modulo 2^32, and
leaves the fail counter alone. -/
theorem run_replicate_Pass (n : Nat) (t : test) (c : Int) (hc : t.pass.val = wrap32 c) :
    (run (List.replicate n Op.Pass) t).pass.val = wrap32 (c + n) ∧
    (run (List.replicate n Op.Pass) t).fail = t.fail := by
  induction n generalizing t c with
  | zero => simp [run, hc]
  | succ n ih =>
    have h1 : (Op.Pass.apply t).pass.val = wrap32 (c + 1) := by
      simp [Op.apply, test.Pass, count32.Inc, hc, wrap32_wrap32_add]
    have := ih (Op.Pass.apply t) (c + 1) h1
    simp only [List.replicate_succ, run, Nat.cast_add, Nat.cast_one]
    rw [this.1, this.2]
    exact ⟨by congr 1; omega, rfl⟩

/-- C1, as stated, fails for N = 2^31: after 2147483648 calls of `Pass()` on the
tracker of `main`, `pass.Get()` is -2147483648 and `fail.Get()` is 0, so their sum
is not the number of calls. -/
theorem pass_fail_sum_overflow :
    (run (List.replicate 2147483648 Op.Pass) newTest).pass.Get.2 = -2147483648 ∧
    (run (List.replicate 2147483648 Op.Pass) newTest).fail.Get.2 = 0 ∧
    (run (List.replicate 2147483648 Op.Pass) newTest).pass.Get.2
      + (run (List.replicate 2147483648 Op.Pass) newTest).fail.Get.2
      ≠ ((List.replicate 2147483648 Op.Pass).length : Int) := by
  have h := run_replicate_Pass 2147483648 newTest 0 (by decide)
  have hp : (run (List.replicate 2147483648 Op.Pass) newTest).pass.val = -2147483648 := by
    rw [h.1]; decide
  have hf : (run (List.replicate 2147483648 Op.Pass) newTest).fail.val = 0 := by
    rw [h.2]; rfl
  simp only [count32.Get, hp, hf, List.length_replicate]
  decide

/-- C1 (amended): for every tracker whose pass and fail counters start at 0 and
every finite sequence of N < 2^31 calls, each either `Pass()` or `Fail(msg)` with
an arbitrary message, the sum `pass.Get() + fail.Get()` afterwards equals N. -/
theorem pass_fail_sum (t : test) (ops : List Op)
    (hpass : t.pass.val = 0) (hfail : t.fail.val = 0)
    (hops : ∀ op ∈ ops, op ≠ Op.Reset)
    (hN : ops.length < 2147483648) :
    (run ops t).pass.Get.2 + (run ops t).fail.Get.2 = ops.length := by
  have hsum := countPass_add_countFail ops hops
  have h := run_counters ops t hops (by omega) (by omega) (by omega) (by omega)
  simp only [count32.Get, h.1, h.2, hpass, hfail]
  omega

/-- C1 (amended) at the tracker of `main`, for the three calls `Pass()`,
`Fail("database is locked")`, `Pass()`. -/
theorem pass_fail_sum_witness :
    newTest.pass.val = 0 ∧ newTest.fail.val = 0 ∧
    (∀ op ∈ [Op.Pass, Op.Fail "database is locked", Op.Pass], op ≠ Op.Reset) ∧
    [Op.Pass, Op.Fail "database is locked", Op.Pass].length < 2147483648 ∧
    (run [Op.Pass, Op.Fail "database is locked", Op.Pass] newTest).pass.Get.2
      + (run [Op.Pass, Op.Fail "database is locked", Op.Pass] newTest).fail.Get.2
      = ([Op.Pass, Op.Fail "database is locked", Op.Pass].length : Int) :=
  ⟨rfl, rfl, by decide, by decide,
    pass_fail_sum newTest [Op.Pass, Op.Fail "database is locked", Op.Pass] rfl rfl
      (by decide) (by decide)⟩

/-- A mapping whose only key is `m` has exactly one entry, `m` with its count. -/
theorem entries_of_keys_singleton (s : AList (fun _ : String => Int)) (m : String) (v : Int)
    (hk : s.keys = [m]) (hl : s.lookup m = some v) : s.entries = [⟨m, v⟩] := by
  unfold AList.keys List.keys at hk
  unfold AList.lookup at hl
  cases hs : s.entries with
  | nil => rw [hs] at hk; simp at hk
  | cons e tl =>
    rw [hs] at hk hl
    obtain ⟨a, b⟩ := e
    simp only [List.map_cons, List.cons.injEq, List.map_eq_nil_iff] at hk
    obtain ⟨rfl, rfl⟩ := hk
    simp only [List.dlookup_cons_eq, Option.some.injEq] at hl
    subst hl
    rfl

/-- A run of `Fail(m)` calls on a tracker that already holds `m` as its only key
adds their number to the fail counter and to the count of `m`, modulo 2^32, and
keeps `m` the only key. -/
theorem run_replicate_Fail (m : String) (n : Nat) (t : test) (f c : Int)
    (hf : t.fail.val = wrap32 f) (hc : t.failureMessages.lookup m = some (wrap32 c))
    (hk : t.failureMessages.keys = [m]) :
    (run (List.replicate n (Op.Fail m)) t).fail.val = wrap32 (f + n) ∧
    (run (List.replicate n (Op.Fail m)) t).failureMessages.lookup m = some (wrap32 (c + n)) ∧
    (run (List.replicate n (Op.Fail m)) t).failureMessages.keys = [m] := by
  induction n generalizing t f c with
  | zero => simp [run, hf, hc, hk]
  | succ n ih =>
    have h1 : ((Op.Fail m).apply t).fail.val = wrap32 (f + 1) := by
      simp [Op.apply, test.Fail, count32.Inc, hf, wrap32_wrap32_add]
    have h2 : ((Op.Fail m).apply t).failureMessages.lookup m = some (wrap32 (c + 1)) := by
      simp [Op.apply, test.Fail, hc, AList.lookup_insert, wrap32_wrap32_add]
    have h3 : ((Op.Fail m).apply t).failureMessages.keys = [m] := by
      simp [Op.apply, test.Fail, hc, AList.keys_insert, hk]
    have := ih ((Op.Fail m).apply t) (f + 1) (c + 1) h1 h2 h3
    simp only [List.replicate_succ, run, Nat.cast_add, Nat.cast_one]
    refine ⟨?_, ?_, this.2.2⟩
    · rw [this.1]; congr 1; omega
    · rw [this.2.1]; congr 2; omega

/-- The first `Fail(m)` on a tracker with an empty mapping, followed by `n` more. -/
theorem run_replicate_Fail_empty (m : String) (n : Nat) (t : test) (f : Int)
    (hf : t.fail.val = wrap32 f) (he : t.failureMessages = ∅) :
    (run (List.replicate (n + 1) (Op.Fail m)) t).fail.val = wrap32 (f + (n + 1)) ∧
    (run (List.replicate (n + 1) (Op.Fail m)) t).failureMessages.lookup m
      = some (wrap32 (n + 1)) ∧
    (run (List.replicate (n + 1) (Op.Fail m)) t).failureMessages.keys = [m] := by
  have h1 : ((Op.Fail m).apply t).fail.val = wrap32 (f + 1) := by
    simp [Op.apply, test.Fail, count32.Inc, hf, wrap32_wrap32_add]
  have hw1 : wrap32 1 = 1 := by decide
  have h2 : ((Op.Fail m).apply t).failureMessages.lookup m = some (wrap32 1) := by
    rw [hw1]
    simp only [Op.apply, test.Fail, he, AList.lookup_empty]
    exact AList.lookup_insert _
  have h3 : ((Op.Fail m).apply t).failureMessages.keys = [m] := by
    simp [Op.apply, test.Fail, he, AList.keys_insert]
  have := run_replicate_Fail m n ((Op.Fail m).apply t) (f + 1) 1 h1 h2 h3
  simp only [List.replicate_succ, run]
  refine ⟨?_, ?_, this.2.2⟩
  · rw [this.1]; congr 1; omega
  · rw [this.2.1]; congr 2; omega

/-- C3, as stated, fails for k = 2^31: after 2147483648 calls `Fail("e")` on the
tracker of `main` the count of "e" is -2147483648, not k. It also fails when the
empty-mapping tracker starts with a fail counter other than 0: one `Fail("e")`
from fail counter 5 leaves count 1 and fail counter 6. -/
theorem Fail_repeat_overflow :
    ((run (List.replicate 2147483648 (Op.Fail "e")) newTest).failureMessages.lookup "e"
      = some (-2147483648)) ∧
    ((run (List.replicate 2147483648 (Op.Fail "e")) newTest).failureMessages.lookup "e"
      ≠ some ((2147483648 : Nat) : Int)) ∧
    (({ newTest with fail := ⟨5⟩ } : test).failureMessages = ∅ ∧
      (run (List.replicate 1 (Op.Fail "e"))
        { newTest with fail := ⟨5⟩ }).failureMessages.lookup "e" = some 1 ∧
      (run (List.replicate 1 (Op.Fail "e")) { newTest with fail := ⟨5⟩ }).fail.Get.2 = 6) := by
  have h := run_replicate_Fail_empty "e" 2147483647 newTest 0 (by decide) rfl
  have h2 : (run (List.replicate 2147483648 (Op.Fail "e")) newTest).failureMessages.lookup "e"
      = some (-2147483648) := by
    have h3 := h.2.1
    simp only [Nat.reduceAdd] at h3
    rw [h3]
    decide
  refine ⟨h2, ?_, rfl, by decide, by decide⟩
  rw [h2]
  decide

/-- C3 (amended): for every message `m` and every k with 1 <= k < 2^31, starting
from a tracker with an empty failure-message mapping and fail counter 0, k
consecutive calls `Fail(m)` leave a mapping with exactly one key, `m`, whose count
is k, and that count equals the number of failed attempts recorded in the fail
counter. -/
theorem Fail_repeat (t : test) (m : String) (k : Nat)
    (hempty : t.failureMessages = ∅) (hfail : t.fail.val = 0)
    (hk1 : 1 ≤ k) (hk : k < 2147483648) :
    (run (List.replicate k (Op.Fail m)) t).failureMessages.keys = [m] ∧
    (run (List.replicate k (Op.Fail m)) t).failureMessages.entries = [⟨m, (k : Int)⟩] ∧
    (run (List.replicate k (Op.Fail m)) t).failureMessages.lookup m = some (k : Int) ∧
    (run (List.replicate k (Op.Fail m)) t).fail.Get.2 = (k : Int) := by
  obtain ⟨n, rfl⟩ : ∃ n, k = n + 1 := ⟨k - 1, by omega⟩
  have h := run_replicate_Fail_empty m n t 0 (by rw [hfail]; decide) hempty
  have hw : wrap32 ((n : Int) + 1) = (n : Int) + 1 :=
    wrap32_of_inRange _ (by omega) (by omega)
  have hw0 : wrap32 (0 + ((n : Int) + 1)) = (n : Int) + 1 := by
    rw [zero_add]; exact hw
  have hl : (run (List.replicate (n + 1) (Op.Fail m)) t).failureMessages.lookup m
      = some (((n + 1 : Nat)) : Int) := by
    rw [h.2.1, hw]; simp
  refine ⟨h.2.2, entries_of_keys_singleton _ m _ h.2.2 hl, hl, ?_⟩
  · simp only [count32.Get]
    rw [h.1, hw0]; simp

/-- C3 (amended) at the tracker of `main`, for the message "e" and k = 2. -/
theorem Fail_repeat_witness :
    newTest.failureMessages = ∅ ∧ newTest.fail.val = 0 ∧ 1 ≤ 2 ∧ 2 < 2147483648 ∧
    (run (List.replicate 2 (Op.Fail "e")) newTest).failureMessages.keys = ["e"] ∧
    (run (List.replicate 2 (Op.Fail "e")) newTest).failureMessages.entries
      = [⟨"e", ((2 : Nat) : Int)⟩] ∧
    (run (List.replicate 2 (Op.Fail "e")) newTest).failureMessages.lookup "e"
      = some ((2 : Nat) : Int) ∧
    (run (List.replicate 2 (Op.Fail "e")) newTest).fail.Get.2 = ((2 : Nat) : Int) :=
  ⟨rfl, rfl, by decide, by decide, Fail_repeat newTest "e" 2 rfl rfl (by decide) (by decide)⟩

/-! ## The failure-message mapping against the fail counter -/

theorem sum_kerase (a : String) (l : List (Sigma (fun _ : String => Int))) :
    ((l.kerase a).map (fun e => e.2)).sum
      = (l.map (fun e => e.2)).sum - (l.dlookup a).getD 0 := by
  induction l with
  | nil => simp
  | cons e tl ih =>
    obtain ⟨k, v⟩ := e
    by_cases h : a = k
    · subst h
      simp [List.kerase_cons_eq, List.dlookup_cons_eq]
    · have h2 : k ≠ a := fun hh => h hh.symm
      rw [List.kerase_cons_ne h, List.dlookup_cons_ne _ _ h]
      simp only [List.map_cons, List.sum_cons, ih]
      omega

/-- Storing `b` under `a` changes the sum of the counts by `b` minus the count
that `a` had. -/
theorem sumCounts_insert (s : AList (fun _ : String => Int)) (a : String) (b : Int) :
    sumCounts (s.insert a b) = b + sumCounts s - (s.lookup a).getD 0 := by
  unfold sumCounts
  rw [AList.insert_entries]
  simp only [List.map_cons, List.sum_cons, sum_kerase]
  unfold AList.lookup
  omega

/-- The invariant behind C10: with `F` the number of `Fail` calls since the last
`Reset`, the fail counter is `F` modulo 2^32, and as long as `F` is below 2^31 the
counts add up to `F` and each lies between 1 and `F`. -/
theorem run_invariant (ops : List Op) (t : test) (F : Nat)
    (hfail : t.fail.val = wrap32 F)
    (hinv : F < 2147483648 → sumCounts t.failureMessages = F ∧
      ∀ k c, t.failureMessages.lookup k = some c → 1 ≤ c ∧ c ≤ F) :
    (run ops t).fail.val = wrap32 (failsSinceReset ops F) ∧
    (failsSinceReset ops F < 2147483648 →
      sumCounts (run ops t).failureMessages = failsSinceReset ops F ∧
      ∀ k c, (run ops t).failureMessages.lookup k = some c →
        1 ≤ c ∧ c ≤ failsSinceReset ops F) := by
  induction ops generalizing t F with
  | nil => exact ⟨hfail, hinv⟩
  | cons op ops ih =>
    cases op with
    | Pass => exact ih (Op.Pass.apply t) F hfail hinv
    | Reset =>
      refine ih (Op.Reset.apply t) 0 (by simp [Op.apply, test.Reset]; decide) ?_
      intro _
      refine ⟨by simp [Op.apply, test.Reset, sumCounts], ?_⟩
      intro k c hc
      simp [Op.apply, test.Reset] at hc
    | Fail m =>
      refine ih ((Op.Fail m).apply t) (F + 1) ?_ ?_
      · simp [Op.apply, test.Fail, count32.Inc, hfail, wrap32_wrap32_add]
      · intro hF
        obtain ⟨hsum, hcounts⟩ := hinv (by omega)
        cases hl : t.failureMessages.lookup m with
        | none =>
          have hfm : ((Op.Fail m).apply t).failureMessages = t.failureMessages.insert m 1 := by
            simp [Op.apply, test.Fail, hl]
          rw [hfm]
          refine ⟨by rw [sumCounts_insert, hl, hsum]; simp; omega, ?_⟩
          intro k c hc
          by_cases hkm : k = m
          · subst hkm
            rw [AList.lookup_insert] at hc
            cases hc
            omega
          · rw [AList.lookup_insert_ne hkm] at hc
            have := hcounts k c hc
            omega
        | some c0 =>
          have hb := hcounts m c0 hl
          have hw : wrap32 (c0 + 1) = c0 + 1 := wrap32_of_inRange _ (by omega) (by omega)
          have hfm : ((Op.Fail m).apply t).failureMessages
              = t.failureMessages.insert m (c0 + 1) := by
            simp [Op.apply, test.Fail, hl, hw]
          rw [hfm]
          refine ⟨by rw [sumCounts_insert, hl, hsum]; simp; omega, ?_⟩
          intro k c hc
          by_cases hkm : k = m
          · subst hkm
            rw [AList.lookup_insert] at hc
            cases hc
            omega
          · rw [AList.lookup_insert_ne hkm] at hc
            have := hcounts k c hc
            omega

/-- C10, as stated, fails once 2^31 failures are recorded: after 2147483648 calls
`Fail("e")` from the initial state the count stored for "e" is -2147483648, below
1; and after 2147483647 calls `Fail("a")` and one `Fail("b")` the counts add up to
2147483648 while `fail.Get()` is -2147483648. -/
theorem counts_overflow :
    ((run (List.replicate 2147483648 (Op.Fail "e")) newTest).failureMessages.lookup "e"
      = some (-2147483648)) ∧
    (sumCounts (run (List.replicate 2147483647 (Op.Fail "a") ++ [Op.Fail "b"])
      newTest).failureMessages = 2147483648) ∧
    ((run (List.replicate 2147483647 (Op.Fail "a") ++ [Op.Fail "b"]) newTest).fail.Get.2
      = -2147483648) := by
  have h := run_replicate_Fail_empty "e" 2147483647 newTest 0 (by decide) rfl
  have he : (run (List.replicate 2147483648 (Op.Fail "e")) newTest).failureMessages.lookup "e"
      = some (-2147483648) := by
    have h3 := h.2.1
    simp only [Nat.reduceAdd] at h3
    rw [h3]
    decide
  have ha := run_replicate_Fail_empty "a" 2147483646 newTest 0 (by decide) rfl
  simp only [Nat.reduceAdd] at ha
  have hw : wrap32 (0 + (((2147483646 : Nat) : Int) + 1)) = 2147483647 := by decide
  have hw2 : wrap32 (((2147483646 : Nat) : Int) + 1) = 2147483647 := by decide
  rw [hw, hw2] at ha
  obtain ⟨haf, hal, hak⟩ := ha
  have hfm : (run (List.replicate 2147483647 (Op.Fail "a")) newTest).failureMessages
      = AList.singleton "a" 2147483647 :=
    AList.ext (entries_of_keys_singleton _ "a" _ hak hal)
  refine ⟨he, ?_, ?_⟩
  · rw [run_append]
    generalize run (List.replicate 2147483647 (Op.Fail "a")) newTest = T at hfm haf
    simp only [run, Op.apply, test.Fail, hfm]
    decide
  · rw [run_append]
    generalize run (List.replicate 2147483647 (Op.Fail "a")) newTest = T at hfm haf
    simp only [run, Op.apply, test.Fail, count32.Inc, count32.Get, haf]
    decide

/-- C10 (amended): in every tracker state reachable from the initial state (both
counters 0, empty mapping) by a finite sequence of `Pass()`, `Fail(msg)` and
`Reset()` calls with fewer than 2^31 `Fail` calls after its last `Reset`, the
sum of all counts in the failure-message mapping equals `fail.Get()`, and every
count stored in the mapping is at least 1. -/
theorem counts_match_fail (ops : List Op) (h : failsSinceReset ops 0 < 2147483648) :
    sumCounts (run ops newTest).failureMessages = (run ops newTest).fail.Get.2 ∧
    ∀ k c, (run ops newTest).failureMessages.lookup k = some c → 1 ≤ c := by
  have hinv := run_invariant ops newTest 0 (by decide)
    (fun _ => ⟨by decide, fun k c hc => by simp [newTest] at hc⟩)
  obtain ⟨hsum, hcounts⟩ := hinv.2 h
  have hw : wrap32 (failsSinceReset ops 0) = failsSinceReset ops 0 :=
    wrap32_of_inRange _ (by omega) (by omega)
  refine ⟨?_, fun k c hc => (hcounts k c hc).1⟩
  simp only [count32.Get]
  rw [hsum, hinv.1, hw]

/-- C10 (amended) at a sequence of six calls with a `Reset` in the middle. -/
theorem counts_match_fail_witness :
    failsSinceReset [Op.Fail "a", Op.Pass, Op.Reset, Op.Fail "b", Op.Fail "a", Op.Fail "b"] 0
      < 2147483648 ∧
    (sumCounts (run [Op.Fail "a", Op.Pass, Op.Reset, Op.Fail "b", Op.Fail "a", Op.Fail "b"]
        newTest).failureMessages
      = (run [Op.Fail "a", Op.Pass, Op.Reset, Op.Fail "b", Op.Fail "a", Op.Fail "b"]
        newTest).fail.Get.2 ∧
    ∀ k c, (run [Op.Fail "a", Op.Pass, Op.Reset, Op.Fail "b", Op.Fail "a", Op.Fail "b"]
        newTest).failureMessages.lookup k = some c → 1 ≤ c) :=
  ⟨by decide,
    counts_match_fail [Op.Fail "a", Op.Pass, Op.Reset, Op.Fail "b", Op.Fail "a", Op.Fail "b"]
      (by decide)⟩

/-! ## The insert loop -/

/-- Entered at `i`, the loop starts one attempt for every value from `i` up to,
and excluding, `insertCount`, in this order. -/
theorem insertLoop_eq (insertCount : Int) (d : Nat) :
    ∀ (i : Int) (launched : List Int), (insertCount - i).toNat = d →
      insertLoop insertCount i launched
        = launched ++ (List.range d).map (fun (k : Nat) => i + (k : Int)) := by
  induction d with
  | zero =>
    intro i launched hd
    rw [insertLoop, if_neg (by omega)]
    simp
  | succ d ih =>
    intro i launched hd
    rw [insertLoop, if_pos (by omega), ih (i + 1) _ (by omega), List.range_succ_eq_map]
    simp only [List.append_assoc, List.singleton_append, List.map_cons, List.map_map,
      Nat.cast_zero, add_zero]
    congr 2
    apply List.map_congr_left
    intro k _
    simp only [Function.comp_apply, Nat.cast_succ]
    omega

/-- The attempts of one cycle are those of the loop values 1, ..., insertCount - 1. -/
theorem insertPhase_eq (insertCount : Int) :
    insertPhase insertCount
      = (List.range (insertCount - 1).toNat).map (fun (k : Nat) => 1 + (k : Int)) := by
  unfold insertPhase
  rw [insertLoop_eq insertCount (insertCount - 1).toNat 1 [] rfl]
  simp

theorem complete_eq_foldl (exec : Int → Option String) (order : List Int) (t : test) :
    complete exec order t = order.foldl (fun s a => insertTest (exec a) s) t := by
  induction order generalizing t with
  | nil => rfl
  | cons a order ih => simp [complete, ih]

/-- A run of `Pass` calls leaves the fail counter and the mapping alone. -/
theorem run_replicate_Pass_frame (n : Nat) (t : test) :
    (run (List.replicate n Op.Pass) t).fail = t.fail ∧
    (run (List.replicate n Op.Pass) t).failureMessages = t.failureMessages := by
  induction n generalizing t with
  | zero => exact ⟨rfl, rfl⟩
  | succ n ih =>
    simp only [List.replicate_succ, run]
    exact ih (Op.Pass.apply t)

/-- When every execution succeeds, the tracker after the attempts of `order` is
the tracker after as many `Pass()` calls. -/
theorem complete_success (order : List Int) (t : test) :
    complete (fun _ => none) order t = run (List.replicate order.length Op.Pass) t := by
  induction order generalizing t with
  | nil => rfl
  | cons a order ih =>
    simp only [complete, List.length_cons, List.replicate_succ, run, ih]
    rfl

/-- C7: for every configured insert count n, the insert loop of one cycle launches
exactly n - 1 insert attempts when n >= 1 and none otherwise (so none when
n <= 1): the attempts of the loop values 1, ..., n - 1. Whatever order the
launched attempts finish in, one after the other, the tracker is the result of
one `insertTest` per launched attempt; when every attempt succeeds that is the
result of n - 1 calls
`Pass()`, which leaves the fail counter and the mapping alone and, from a pass
counter of 0 and for n <= 2^31, a pass counter of n - 1. Hence with n = 5 and
every attempt succeeding, a tracker that starts at zero ends the cycle with
pass = 4, fail = 0 and an empty failure-message mapping. -/
theorem insertPhase_launches (insertCount : Int) (exec : Int → Option String) (t : test)
    (order : List Int) (horder : order.Perm (insertPhase insertCount))
    (failure : Bool) (firstFailureSeen resetCount : Int) :
    (((insertPhase insertCount).length : Int)
      = if 1 ≤ insertCount then insertCount - 1 else 0) ∧
    (insertPhase insertCount
      = (List.range (insertCount - 1).toNat).map (fun (k : Nat) => 1 + (k : Int))) ∧
    ((order.length : Int) = if 1 ≤ insertCount then insertCount - 1 else 0) ∧
    (complete exec order t = order.foldl (fun s a => insertTest (exec a) s) t) ∧
    (complete (fun _ => none) order t
      = run (List.replicate (insertCount - 1).toNat Op.Pass) t) ∧
    ((complete (fun _ => none) order t).fail = t.fail) ∧
    ((complete (fun _ => none) order t).failureMessages = t.failureMessages) ∧
    (t.pass.val = 0 → insertCount ≤ 2147483648 →
      (complete (fun _ => none) order t).pass.Get.2
        = if 1 ≤ insertCount then insertCount - 1 else 0) ∧
    (∀ order5 : List Int, order5.Perm (insertPhase 5) →
      complete (fun _ => none) order5
        { pass := ⟨0⟩, fail := ⟨0⟩, failure := failure, firstFailureSeen := firstFailureSeen,
          failureMessages := ∅, resetCount := resetCount }
        = { pass := ⟨4⟩, fail := ⟨0⟩, failure := failure, firstFailureSeen := firstFailureSeen,
            failureMessages := ∅, resetCount := resetCount } ∧
      (complete (fun _ => none) order5
        { pass := ⟨0⟩, fail := ⟨0⟩, failure := failure, firstFailureSeen := firstFailureSeen,
          failureMessages := ∅, resetCount := resetCount }).pass.Get.2 = 4 ∧
      (complete (fun _ => none) order5
        { pass := ⟨0⟩, fail := ⟨0⟩, failure := failure, firstFailureSeen := firstFailureSeen,
          failureMessages := ∅, resetCount := resetCount }).fail.Get.2 = 0 ∧
      (complete (fun _ => none) order5
        { pass := ⟨0⟩, fail := ⟨0⟩, failure := failure, firstFailureSeen := firstFailureSeen,
          failureMessages := ∅, resetCount := resetCount }).failureMessages.keys = []) := by
  have hphase := insertPhase_eq insertCount
  have hlen : (insertPhase insertCount).length = (insertCount - 1).toNat := by
    rw [hphase]; simp
  have holen : order.length = (insertCount - 1).toNat := by
    rw [horder.length_eq, hlen]
  have hrun : complete (fun _ => none) order t
      = run (List.replicate (insertCount - 1).toNat Op.Pass) t := by
    rw [complete_success, holen]
  refine ⟨?_, hphase, ?_, complete_eq_foldl exec order t, hrun, ?_, ?_, ?_, ?_⟩
  · rw [hlen]; split <;> omega
  · rw [holen]; split <;> omega
  · rw [hrun]
    exact (run_replicate_Pass_frame _ t).1
  · rw [hrun]
    exact (run_replicate_Pass_frame _ t).2
  · intro hpass hn
    have hp := (run_replicate_Pass (insertCount - 1).toNat t 0 (by rw [hpass]; decide)).1
    have hw : wrap32 (0 + ((insertCount - 1).toNat : Int)) = ((insertCount - 1).toNat : Int) := by
      rw [zero_add]
      exact wrap32_of_inRange _ (by omega) (by omega)
    simp only [count32.Get]
    rw [hrun, hp, hw]
    split <;> omega
  · intro order5 h5
    have hlen5 : order5.length = 4 := by
      rw [h5.length_eq, insertPhase_eq]
      simp
    have hfour : complete (fun _ => none) order5
        { pass := ⟨0⟩, fail := ⟨0⟩, failure := failure, firstFailureSeen := firstFailureSeen,
          failureMessages := ∅, resetCount := resetCount }
        = { pass := ⟨4⟩, fail := ⟨0⟩, failure := failure, firstFailureSeen := firstFailureSeen,
            failureMessages := ∅, resetCount := resetCount } := by
      rw [complete_success, hlen5]
      rfl
    rw [hfour]
    exact ⟨rfl, rfl, rfl, rfl⟩

/-- C7 at n = 5, on the tracker of `main`, for the attempts finishing in the order
3, 1, 4, 2. -/
theorem insertPhase_launches_witness :
    ([3, 1, 4, 2] : List Int).Perm (insertPhase 5) ∧
    (((insertPhase 5).length : Int) = if (1 : Int) ≤ 5 then 5 - 1 else 0) ∧
    (insertPhase 5
      = (List.range ((5 : Int) - 1).toNat).map (fun (k : Nat) => 1 + (k : Int))) ∧
    ((([3, 1, 4, 2] : List Int).length : Int) = if (1 : Int) ≤ 5 then 5 - 1 else 0) ∧
    (complete (fun a => if a = 2 then some "database is locked" else none) [3, 1, 4, 2] newTest
      = ([3, 1, 4, 2] : List Int).foldl
          (fun s a =>
            insertTest ((fun a => if a = 2 then some "database is locked" else none) a) s)
          newTest) ∧
    (complete (fun _ => none) [3, 1, 4, 2] newTest
      = run (List.replicate ((5 : Int) - 1).toNat Op.Pass) newTest) ∧
    ((complete (fun _ => none) [3, 1, 4, 2] newTest).fail = newTest.fail) ∧
    ((complete (fun _ => none) [3, 1, 4, 2] newTest).failureMessages
      = newTest.failureMessages) ∧
    (newTest.pass.val = 0 → (5 : Int) ≤ 2147483648 →
      (complete (fun _ => none) [3, 1, 4, 2] newTest).pass.Get.2
        = if (1 : Int) ≤ 5 then 5 - 1 else 0) ∧
    (∀ order5 : List Int, order5.Perm (insertPhase 5) →
      complete (fun _ => none) order5
        { pass := ⟨0⟩, fail := ⟨0⟩, failure := false, firstFailureSeen := 0,
          failureMessages := ∅, resetCount := 0 }
        = { pass := ⟨4⟩, fail := ⟨0⟩, failure := false, firstFailureSeen := 0,
            failureMessages := ∅, resetCount := 0 } ∧
      (complete (fun _ => none) order5
        { pass := ⟨0⟩, fail := ⟨0⟩, failure := false, firstFailureSeen := 0,
          failureMessages := ∅, resetCount := 0 }).pass.Get.2 = 4 ∧
      (complete (fun _ => none) order5
        { pass := ⟨0⟩, fail := ⟨0⟩, failure := false, firstFailureSeen := 0,
          failureMessages := ∅, resetCount := 0 }).fail.Get.2 = 0 ∧
      (complete (fun _ => none) order5
        { pass := ⟨0⟩, fail := ⟨0⟩, failure := false, firstFailureSeen := 0,
          failureMessages := ∅, resetCount := 0 }).failureMessages.keys = []) :=
  have horder : ([3, 1, 4, 2] : List Int).Perm (insertPhase 5) := by
    rw [insertPhase_eq]
    decide
  ⟨horder,
    insertPhase_launches 5 (fun a => if a = 2 then some "database is locked" else none)
      newTest [3, 1, 4, 2] horder false 0 0⟩

/-! ## The metric text -/

theorem digitChar_ne_newline (d : Nat) : Nat.digitChar d ≠ '\n' := by
  by_cases h : d < 16
  · interval_cases d <;> decide
  · have hstar : Nat.digitChar d = '*' := by
      unfold Nat.digitChar
      iterate 16 rw [if_neg (by omega)]
    rw [hstar]
    decide

theorem toDigitsCore_no_newline (fuel : Nat) :
    ∀ (n : Nat) (ds : List Char), (∀ c ∈ ds, c ≠ '\n') →
      ∀ c ∈ Nat.toDigitsCore 10 fuel n ds, c ≠ '\n' := by
  induction fuel with
  | zero => intro n ds hds; simpa [Nat.toDigitsCore] using hds
  | succ fuel ih =>
    intro n ds hds
    have hcons : ∀ c ∈ Nat.digitChar (n % 10) :: ds, c ≠ '\n' := by
      intro c hc
      rcases List.mem_cons.1 hc with h | h
      · rw [h]; exact digitChar_ne_newline _
      · exact hds c h
    simp only [Nat.toDigitsCore]
    split
    · exact hcons
    · exact ih _ _ hcons

/-- The decimal rendering of an integer contains no newline. -/
theorem fmtD_no_newline (i : Int) : ∀ c ∈ (fmtD i).data, c ≠ '\n' := by
  have hnat : ∀ m : Nat, ∀ c ∈ Nat.toDigits 10 m, c ≠ '\n' := fun m =>
    toDigitsCore_no_newline _ m [] (by simp)
  cases i with
  | ofNat m => simpa [fmtD, List.asString] using hnat m
  | negSucc m =>
    intro c hc
    simp only [fmtD, List.asString, String.data_append, List.mem_append] at hc
    rcases hc with h | h
    · revert c; decide
    · exact hnat _ c h

/-- A text without newline is a single piece. -/
theorem splitOnNewline_of_no_newline (l : List Char) (h : ∀ c ∈ l, c ≠ '\n') :
    splitOnNewline l = [l] := by
  induction l with
  | nil => rfl
  | cons c cs ih =>
    have hc : c ≠ '\n' := h c (List.mem_cons_self _ _)
    have hcs := ih (fun x hx => h x (List.mem_cons_of_mem _ hx))
    simp [splitOnNewline, hc, hcs]

/-- A text without newline, then a newline, then a rest: the first piece is the
text and the other pieces are those of the rest. -/
theorem splitOnNewline_append (l r : List Char) (h : ∀ c ∈ l, c ≠ '\n') :
    splitOnNewline (l ++ '\n' :: r) = l :: splitOnNewline r := by
  induction l with
  | nil => simp [splitOnNewline]
  | cons c cs ih =>
    have hc : c ≠ '\n' := h c (List.mem_cons_self _ _)
    have hcs := ih (fun x hx => h x (List.mem_cons_of_mem _ hx))
    simp [splitOnNewline, hc, hcs]

/-- A metric line whose name has no newline has no newline. -/
theorem metricLine_no_newline (name : String) (a b c v : Int)
    (hname : ∀ x ∈ name.data, x ≠ '\n') :
    ∀ x ∈ (metricLine name a b c v).data, x ≠ '\n' := by
  intro x hx
  simp only [metricLine, String.data_append, List.mem_append] at hx
  rcases hx with ((((((((h | h) | h) | h) | h) | h) | h) | h) | h)
  · exact hname x h
  · revert x; decide
  · exact fmtD_no_newline a x h
  · revert x; decide
  · exact fmtD_no_newline b x h
  · revert x; decide
  · exact fmtD_no_newline c x h
  · revert x; decide
  · exact fmtD_no_newline v x h

/-- The pieces of the metric text: an empty one, then the two metric lines. -/
theorem PrometheusMetric_pieces (t : test) (a b c : Int) :
    splitOnNewline (t.PrometheusMetric a b c).data
      = [[], (metricLine "iometrics_sqllite_pass" a b c t.pass.Get.2).data,
          (metricLine "iometrics_sqllite_fail" a b c t.fail.Get.2).data] := by
  have hp := metricLine_no_newline "iometrics_sqllite_pass" a b c t.pass.Get.2 (by decide)
  have hf := metricLine_no_newline "iometrics_sqllite_fail" a b c t.fail.Get.2 (by decide)
  have hdata : (t.PrometheusMetric a b c).data
      = [] ++ '\n' :: ((metricLine "iometrics_sqllite_pass" a b c t.pass.Get.2).data
          ++ '\n' :: (metricLine "iometrics_sqllite_fail" a b c t.fail.Get.2).data) := by
    simp [test.PrometheusMetric, String.data_append]
  rw [hdata, splitOnNewline_append [] _ (by simp), splitOnNewline_append _ _ hp,
    splitOnNewline_of_no_newline _ hf]

/-- C6, as stated, fails on the tracker of `main` with the values 5, 10, 10: the
returned text starts with a newline, so splitting it on newline characters gives
three pieces, the first of them empty, not two lines. -/
theorem PrometheusMetric_three_pieces :
    (splitOnNewline (newTest.PrometheusMetric 5 10 10).data).length = 3 ∧
    (splitOnNewline (newTest.PrometheusMetric 5 10 10).data).length ≠ 2 ∧
    (splitOnNewline (newTest.PrometheusMetric 5 10 10).data).head? = some [] ∧
    (newTest.PrometheusMetric 5 10 10).data.head? = some '\n' := by
  decide

/-- C6 (amended): for every tracker and every three integers `insertCount`,
`insertWait`, `sleepWait`, the text returned by `PrometheusMetric` is a newline
followed by two newline-separated lines, so that split on newline characters it
consists of exactly three pieces: an empty one, then
`iometrics_sqllite_pass{insertCount="<insertCount>",insertWait="<insertWait>",sleepWait="<sleepWait>"} <pass.Get()>`
and then the same line with the name `iometrics_sqllite_fail` and the value
`fail.Get()`, all numbers in decimal; for a fresh tracker both values are 0. -/
theorem PrometheusMetric_lines (t : test) (insertCount insertWait sleepWait : Int) :
    splitOnNewline (t.PrometheusMetric insertCount insertWait sleepWait).data
      = [[],
          ("iometrics_sqllite_pass\x7binsertCount=\"" ++ fmtD insertCount
            ++ "\",insertWait=\"" ++ fmtD insertWait
            ++ "\",sleepWait=\"" ++ fmtD sleepWait ++ "\"\x7d " ++ fmtD t.pass.Get.2).data,
          ("iometrics_sqllite_fail\x7binsertCount=\"" ++ fmtD insertCount
            ++ "\",insertWait=\"" ++ fmtD insertWait
            ++ "\",sleepWait=\"" ++ fmtD sleepWait ++ "\"\x7d " ++ fmtD t.fail.Get.2).data] ∧
    splitOnNewline (newTest.PrometheusMetric insertCount insertWait sleepWait).data
      = [[],
          ("iometrics_sqllite_pass\x7binsertCount=\"" ++ fmtD insertCount
            ++ "\",insertWait=\"" ++ fmtD insertWait
            ++ "\",sleepWait=\"" ++ fmtD sleepWait ++ "\"\x7d 0").data,
          ("iometrics_sqllite_fail\x7binsertCount=\"" ++ fmtD insertCount
            ++ "\",insertWait=\"" ++ fmtD insertWait
            ++ "\",sleepWait=\"" ++ fmtD sleepWait ++ "\"\x7d 0").data] ∧
    fmtD 0 = "0" ∧ fmtD 10000 = "10000" ∧ fmtD (-7) = "-7" := by
  refine ⟨PrometheusMetric_pieces t _ _ _, ?_, by decide, by decide, by decide⟩
  rw [PrometheusMetric_pieces]
  have h0 : fmtD 0 = "0" := by decide
  simp [metricLine, newTest, count32.Get, h0, String.data_append]

/-! ## The insert statement -/

/-- C9 fails on the code: the column list of the prepared insert statement names
`text1` twice and never `text2`, while `createTable` declares the columns `id`,
`text1`, `text2`; so both identifiers of an attempt are aimed at `text1`, which
keeps the first of them, and `text2` is left NULL. -/
theorem insert_statement_names_text1_twice :
    insertColumns insertTestData = ["text1", "text1"] ∧
    insertColumns insertTestData ≠ ["text1", "text2"] ∧
    "text2" ∉ insertColumns insertTestData ∧
    createdColumns = ["id", "text1", "text2"] ∧
    (∀ text1 text2 : String,
      storedText text1 text2 "text1" = some text1 ∧
      storedText text1 text2 "text2" = none) := by
  have h : insertColumns insertTestData = ["text1", "text1"] := by decide
  refine ⟨h, by decide, by decide, by decide, ?_⟩
  intro text1 text2
  unfold storedText
  rw [h]
  exact ⟨rfl, rfl⟩

end Iometrics
